import Mathlib

/-!
Shallow embedding of the icon-resolution engine of the `atom` repository
(`lib/core/icon-tables.js`, `lib/storage.js` — `Storage` and `StrategyManager` —
and the signature/hashbang/modeline strategies), together with theorems
settling the frozen claims about it.

Conventions of the embedding:
* JavaScript `Map` caches are modelled as association lists; `Map.set`
  becomes a shadowing cons (lookups see the newest binding, matching the
  overwrite semantics of `Map.set`), `Map.get` becomes `List.lookup`
  (`none` models `undefined`).
* Compiled regular-expression matchers attached to icons are opaque to the
  engine — the code only ever calls `.test(key)` — so they are modelled as
  Boolean predicates `String → Bool`.
* Mutation is modelled by explicit state passing: a method that mutates
  `this` returns the updated structure alongside its result.
-/

namespace Atom

/-- Modelled from the spec: the `Icon` record (`lib/icon.js` is not part of
the sources at hand) — an immutable record created at table-load time from
its offset in the compiled list, carrying compiled matchers for each match
kind.  The display-class data is irrelevant to the claims and omitted; the
matchers are modelled as Boolean predicates.  The source field `match` is
named `matchPat` here because `match` is reserved in Lean. -/
structure Icon where
  id          : Nat
  matchPat    : String → Bool
  lang        : String → Bool
  scope       : String → Bool
  interpreter : String → Bool
  signature   : String → Bool

/-- Result of `IconTables.read`: the full ordered icon list plus the five
derived indices (each an ordered subset of icons relevant to one match
kind), exactly the record literal returned at `icon-tables.js:71-78`. -/
structure IconSet where
  byName        : List Icon
  byInterpreter : List Icon
  byLanguage    : List Icon
  byPath        : List Icon
  byScope       : List Icon
  bySignature   : List Icon

/-- Empty icon set, used to build small concrete tables in examples. -/
def IconSet.empty : IconSet :=
  { byName := [], byInterpreter := [], byLanguage := [], byPath := [],
    byScope := [], bySignature := [] }

/-- The eight memoisation maps created in the `IconTables` constructor
(`icon-tables.js:30-39`), one field per `Map`. -/
structure MatchCache where
  directoryName : List (String × Icon)
  directoryPath : List (String × Icon)
  fileName      : List (String × Icon)
  filePath      : List (String × Icon)
  interpreter   : List (String × Icon)
  scope         : List (String × Icon)
  language      : List (String × Icon)
  signature     : List (String × Icon)

/-- The empty cache state every `IconTables` starts from. -/
def MatchCache.empty : MatchCache :=
  { directoryName := [], directoryPath := [], fileName := [], filePath := [],
    interpreter := [], scope := [], language := [], signature := [] }

/-- State of an `IconTables` instance: the two immutable icon sets, the two
fallback icons derived at construction, and the mutable cache. -/
structure IconTables where
  directoryIcons : IconSet
  fileIcons      : IconSet
  binaryIcon     : Option Icon
  executableIcon : Option Icon
  cache          : MatchCache

namespace IconTables

/-- Embedding of `IconTables.matchName` (`icon-tables.js:89-101`): select
the name cache and `byName` index for the requested resource kind, answer
from the cache on a hit, otherwise scan the index for the first icon whose
`match` pattern accepts the key, caching a positive result before
returning.  A negative result is returned without touching the cache, as in
the source. -/
def matchName (t : IconTables) (name : String) (directory : Bool) :
    Option Icon × IconTables :=
  let cachedIcons := if directory then t.cache.directoryName else t.cache.fileName
  let icons := if directory then t.directoryIcons.byName else t.fileIcons.byName
  match cachedIcons.lookup name with
  | some cached => (some cached, t)
  | none =>
    match icons.find? (fun icon => icon.matchPat name) with
    | some icon =>
      (some icon,
        if directory then
          { t with cache := { t.cache with directoryName := (name, icon) :: t.cache.directoryName } }
        else
          { t with cache := { t.cache with fileName := (name, icon) :: t.cache.fileName } })
    | none => (none, t)

/-- Embedding of `IconTables.matchPath` (`icon-tables.js:111-123`).  Note
that the source selects `this.cache.directoryName` / `this.cache.fileName`
(`icon-tables.js:113-114`) — the same maps `matchName` uses — while the
constructor's `directoryPath` / `filePath` maps are never read or written;
the embedding reproduces that cache choice exactly.  The scan runs over the
`byPath` index, testing each icon's `match` pattern against the path. -/
def matchPath (t : IconTables) (path : String) (directory : Bool) :
    Option Icon × IconTables :=
  let cachedIcons := if directory then t.cache.directoryName else t.cache.fileName
  let icons := if directory then t.directoryIcons.byPath else t.fileIcons.byPath
  match cachedIcons.lookup path with
  | some cached => (some cached, t)
  | none =>
    match icons.find? (fun icon => icon.matchPat path) with
    | some icon =>
      (some icon,
        if directory then
          { t with cache := { t.cache with directoryName := (path, icon) :: t.cache.directoryName } }
        else
          { t with cache := { t.cache with fileName := (path, icon) :: t.cache.fileName } })
    | none => (none, t)

/-- Embedding of `IconTables.matchLanguage` (`icon-tables.js:135-144`). -/
def matchLanguage (t : IconTables) (name : String) : Option Icon × IconTables :=
  match t.cache.language.lookup name with
  | some cached => (some cached, t)
  | none =>
    match t.fileIcons.byLanguage.find? (fun icon => icon.lang name) with
    | some icon =>
      (some icon, { t with cache := { t.cache with language := (name, icon) :: t.cache.language } })
    | none => (none, t)

/-- Embedding of `IconTables.matchScope` (`icon-tables.js:154-163`). -/
def matchScope (t : IconTables) (name : String) : Option Icon × IconTables :=
  match t.cache.scope.lookup name with
  | some cached => (some cached, t)
  | none =>
    match t.fileIcons.byScope.find? (fun icon => icon.scope name) with
    | some icon =>
      (some icon, { t with cache := { t.cache with scope := (name, icon) :: t.cache.scope } })
    | none => (none, t)

/-- Embedding of `IconTables.matchInterpreter` (`icon-tables.js:175-184`). -/
def matchInterpreter (t : IconTables) (name : String) : Option Icon × IconTables :=
  match t.cache.interpreter.lookup name with
  | some cached => (some cached, t)
  | none =>
    match t.fileIcons.byInterpreter.find? (fun icon => icon.interpreter name) with
    | some icon =>
      (some icon, { t with cache := { t.cache with interpreter := (name, icon) :: t.cache.interpreter } })
    | none => (none, t)

/-- True when the byte string contains a null byte, the test `/\0/.test(data)`
at `icon-tables.js:204`. -/
def hasNullByte (data : String) : Bool :=
  data.toList.any (fun c => c = '\x00')

/-- Embedding of `IconTables.matchSignature` (`icon-tables.js:194-210`):
cache lookup, then the ordered scan of the `bySignature` index, then — only
if the scan found nothing — the null-byte heuristic returning the
precomputed binary icon and caching it.  When `binaryIcon` is absent the
source stores `null` in the cache, which later `if(cached)` checks treat
exactly like an absent key, so the embedding stores nothing in that case. -/
def matchSignature (t : IconTables) (data : String) : Option Icon × IconTables :=
  match t.cache.signature.lookup data with
  | some cached => (some cached, t)
  | none =>
    match t.fileIcons.bySignature.find? (fun icon => icon.signature data) with
    | some icon =>
      (some icon, { t with cache := { t.cache with signature := (data, icon) :: t.cache.signature } })
    | none =>
      if hasNullByte data then
        match t.binaryIcon with
        | some b =>
          (some b, { t with cache := { t.cache with signature := (data, b) :: t.cache.signature } })
        | none => (none, t)
      else (none, t)

/-- Embedding of the `IconTables` constructor (`icon-tables.js:24-46`) after
the compiled data has been read into the two icon sets: start with empty
caches, then derive `binaryIcon` and `executableIcon` by the two lookups
the constructor performs, which also populate the scope and interpreter
caches as a side effect. -/
def construct (directoryIcons fileIcons : IconSet) : IconTables :=
  let t0 : IconTables :=
    { directoryIcons := directoryIcons, fileIcons := fileIcons,
      binaryIcon := none, executableIcon := none, cache := MatchCache.empty }
  let rb := matchScope t0 "source.asm"
  let re := matchInterpreter rb.2 "bash"
  { re.2 with binaryIcon := rb.1, executableIcon := re.1 }

end IconTables

/-! ### Concrete tables for evaluating the match operations -/

/-- Icon whose name pattern accepts exactly the key "x"; stands for a
file-name rule. -/
def nameIconX : Icon :=
  { id := 1, matchPat := fun s => s = "x", lang := fun _ => false,
    scope := fun _ => false, interpreter := fun _ => false,
    signature := fun _ => false }

/-- Icon whose path pattern accepts exactly the key "x"; stands for a
file-path rule distinct from `nameIconX`. -/
def pathIconX : Icon :=
  { id := 2, matchPat := fun s => s = "x", lang := fun _ => false,
    scope := fun _ => false, interpreter := fun _ => false,
    signature := fun _ => false }

/-- File icon set holding `nameIconX` in the name index and `pathIconX` in
the path index, so that name lookups and path lookups of "x" match
different icons. -/
def iconSetX : IconSet :=
  { IconSet.empty with byName := [nameIconX], byPath := [pathIconX] }

/-- Concrete rule table built by the constructor from `iconSetX`. -/
def tablesX : IconTables := IconTables.construct IconSet.empty iconSetX

/-- C1: the claim says `matchPath` consults and populates a path-kind cache
distinct from the name-kind cache, so a prior `matchName` lookup of a key
never determines the result of a later `matchPath` lookup of the same key.
The code violates this: on the concrete table `tablesX`, a fresh
`matchPath "x"` yields the path-rule icon (id 2), but after a prior
`matchName "x"` the same `matchPath "x"` call is answered from the shared
`fileName` cache and yields the name-rule icon (id 1) instead. -/
theorem matchPath_answered_from_name_cache :
    ((tablesX.matchPath "x" false).1.map Icon.id) = some 2 ∧
    (((tablesX.matchName "x" false).2.matchPath "x" false).1.map Icon.id) = some 1 := by
  exact ⟨rfl, rfl⟩

/-! ### Cache behaviour of the match operations -/

theorem matchLanguage_pos (t t' : IconTables) (k : String) (i : Icon)
    (h : t.matchLanguage k = (some i, t')) :
    t'.matchLanguage k = (some i, t') := by
  unfold IconTables.matchLanguage at h ⊢
  cases hc : t.cache.language.lookup k with
  | some c =>
    simp only [hc] at h
    obtain ⟨h1, h2⟩ := Prod.mk.injEq _ _ _ _ ▸ h
    obtain rfl := Option.some.injEq _ _ ▸ h1
    subst h2
    simp only [hc]
  | none =>
    simp only [hc] at h
    cases hf : t.fileIcons.byLanguage.find? (fun icon => icon.lang k) with
    | some icon =>
      simp only [hf] at h
      obtain ⟨h1, h2⟩ := Prod.mk.injEq _ _ _ _ ▸ h
      obtain rfl := Option.some.injEq _ _ ▸ h1
      subst h2
      simp [List.lookup]
    | none =>
      simp only [hf] at h
      exact absurd h (by simp)

theorem matchLanguage_neg (t t' : IconTables) (k : String)
    (h : t.matchLanguage k = (none, t')) : t' = t := by
  unfold IconTables.matchLanguage at h
  cases hc : t.cache.language.lookup k with
  | some c => simp [hc] at h
  | none =>
    simp only [hc] at h
    cases hf : t.fileIcons.byLanguage.find? (fun icon => icon.lang k) with
    | some icon => simp [hf] at h
    | none => simp only [hf, Prod.mk.injEq] at h; exact h.2.symm

theorem matchScope_pos (t t' : IconTables) (k : String) (i : Icon)
    (h : t.matchScope k = (some i, t')) :
    t'.matchScope k = (some i, t') := by
  unfold IconTables.matchScope at h ⊢
  cases hc : t.cache.scope.lookup k with
  | some c =>
    simp only [hc] at h
    obtain ⟨h1, h2⟩ := Prod.mk.injEq _ _ _ _ ▸ h
    obtain rfl := Option.some.injEq _ _ ▸ h1
    subst h2
    simp only [hc]
  | none =>
    simp only [hc] at h
    cases hf : t.fileIcons.byScope.find? (fun icon => icon.scope k) with
    | some icon =>
      simp only [hf] at h
      obtain ⟨h1, h2⟩ := Prod.mk.injEq _ _ _ _ ▸ h
      obtain rfl := Option.some.injEq _ _ ▸ h1
      subst h2
      simp [List.lookup]
    | none =>
      simp only [hf] at h
      exact absurd h (by simp)

theorem matchScope_neg (t t' : IconTables) (k : String)
    (h : t.matchScope k = (none, t')) : t' = t := by
  unfold IconTables.matchScope at h
  cases hc : t.cache.scope.lookup k with
  | some c => simp [hc] at h
  | none =>
    simp only [hc] at h
    cases hf : t.fileIcons.byScope.find? (fun icon => icon.scope k) with
    | some icon => simp [hf] at h
    | none => simp only [hf, Prod.mk.injEq] at h; exact h.2.symm

theorem matchInterpreter_pos (t t' : IconTables) (k : String) (i : Icon)
    (h : t.matchInterpreter k = (some i, t')) :
    t'.matchInterpreter k = (some i, t') := by
  unfold IconTables.matchInterpreter at h ⊢
  cases hc : t.cache.interpreter.lookup k with
  | some c =>
    simp only [hc] at h
    obtain ⟨h1, h2⟩ := Prod.mk.injEq _ _ _ _ ▸ h
    obtain rfl := Option.some.injEq _ _ ▸ h1
    subst h2
    simp only [hc]
  | none =>
    simp only [hc] at h
    cases hf : t.fileIcons.byInterpreter.find? (fun icon => icon.interpreter k) with
    | some icon =>
      simp only [hf] at h
      obtain ⟨h1, h2⟩ := Prod.mk.injEq _ _ _ _ ▸ h
      obtain rfl := Option.some.injEq _ _ ▸ h1
      subst h2
      simp [List.lookup]
    | none =>
      simp only [hf] at h
      exact absurd h (by simp)

theorem matchInterpreter_neg (t t' : IconTables) (k : String)
    (h : t.matchInterpreter k = (none, t')) : t' = t := by
  unfold IconTables.matchInterpreter at h
  cases hc : t.cache.interpreter.lookup k with
  | some c => simp [hc] at h
  | none =>
    simp only [hc] at h
    cases hf : t.fileIcons.byInterpreter.find? (fun icon => icon.interpreter k) with
    | some icon => simp [hf] at h
    | none => simp only [hf, Prod.mk.injEq] at h; exact h.2.symm

theorem matchSignature_pos (t t' : IconTables) (k : String) (i : Icon)
    (h : t.matchSignature k = (some i, t')) :
    t'.matchSignature k = (some i, t') := by
  unfold IconTables.matchSignature at h ⊢
  cases hc : t.cache.signature.lookup k with
  | some c =>
    simp only [hc] at h
    obtain ⟨h1, h2⟩ := Prod.mk.injEq _ _ _ _ ▸ h
    obtain rfl := Option.some.injEq _ _ ▸ h1
    subst h2
    simp only [hc]
  | none =>
    simp only [hc] at h
    cases hf : t.fileIcons.bySignature.find? (fun icon => icon.signature k) with
    | some icon =>
      simp only [hf] at h
      obtain ⟨h1, h2⟩ := Prod.mk.injEq _ _ _ _ ▸ h
      obtain rfl := Option.some.injEq _ _ ▸ h1
      subst h2
      simp [List.lookup]
    | none =>
      simp only [hf] at h
      cases hn : IconTables.hasNullByte k with
      | true =>
        simp only [hn, if_true] at h
        cases hb : t.binaryIcon with
        | some b =>
          simp only [hb] at h
          obtain ⟨h1, h2⟩ := Prod.mk.injEq _ _ _ _ ▸ h
          obtain rfl := Option.some.injEq _ _ ▸ h1
          subst h2
          simp [List.lookup]
        | none => simp [hb] at h
      | false => simp [hn] at h

theorem matchSignature_neg (t t' : IconTables) (k : String)
    (h : t.matchSignature k = (none, t')) : t' = t := by
  unfold IconTables.matchSignature at h
  cases hc : t.cache.signature.lookup k with
  | some c => simp [hc] at h
  | none =>
    simp only [hc] at h
    cases hf : t.fileIcons.bySignature.find? (fun icon => icon.signature k) with
    | some icon => simp [hf] at h
    | none =>
      simp only [hf] at h
      cases hn : IconTables.hasNullByte k with
      | true =>
        simp only [hn, if_true] at h
        cases hb : t.binaryIcon with
        | some b => simp [hb] at h
        | none => simp only [hb, Prod.mk.injEq] at h; exact h.2.symm
      | false =>
        simp only [hn, Bool.false_eq_true, if_false, Prod.mk.injEq] at h
        exact h.2.symm

theorem matchName_pos (t t' : IconTables) (k : String) (d : Bool) (i : Icon)
    (h : t.matchName k d = (some i, t')) : t'.matchName k d = (some i, t') := by
  cases d with
  | false =>
    simp only [IconTables.matchName, Bool.false_eq_true, if_false] at h ⊢
    cases hc : t.cache.fileName.lookup k with
    | some c =>
      simp only [hc] at h
      obtain ⟨h1, h2⟩ := Prod.mk.injEq _ _ _ _ ▸ h
      obtain rfl := Option.some.injEq _ _ ▸ h1
      subst h2
      simp only [hc]
    | none =>
      simp only [hc] at h
      cases hf : t.fileIcons.byName.find? (fun icon => icon.matchPat k) with
      | some icon =>
        simp only [hf] at h
        obtain ⟨h1, h2⟩ := Prod.mk.injEq _ _ _ _ ▸ h
        obtain rfl := Option.some.injEq _ _ ▸ h1
        subst h2
        simp [List.lookup]
      | none =>
        simp only [hf] at h
        exact absurd h (by simp)
  | true =>
    simp only [IconTables.matchName, if_true] at h ⊢
    cases hc : t.cache.directoryName.lookup k with
    | some c =>
      simp only [hc] at h
      obtain ⟨h1, h2⟩ := Prod.mk.injEq _ _ _ _ ▸ h
      obtain rfl := Option.some.injEq _ _ ▸ h1
      subst h2
      simp only [hc]
    | none =>
      simp only [hc] at h
      cases hf : t.directoryIcons.byName.find? (fun icon => icon.matchPat k) with
      | some icon =>
        simp only [hf] at h
        obtain ⟨h1, h2⟩ := Prod.mk.injEq _ _ _ _ ▸ h
        obtain rfl := Option.some.injEq _ _ ▸ h1
        subst h2
        simp [List.lookup]
      | none =>
        simp only [hf] at h
        exact absurd h (by simp)

theorem matchName_neg (t t' : IconTables) (k : String) (d : Bool)
    (h : t.matchName k d = (none, t')) : t' = t := by
  cases d with
  | false =>
    simp only [IconTables.matchName, Bool.false_eq_true, if_false] at h
    cases hc : t.cache.fileName.lookup k with
    | some c => simp [hc] at h
    | none =>
      simp only [hc] at h
      cases hf : t.fileIcons.byName.find? (fun icon => icon.matchPat k) with
      | some icon => simp [hf] at h
      | none => simp only [hf, Prod.mk.injEq] at h; exact h.2.symm
  | true =>
    simp only [IconTables.matchName, if_true] at h
    cases hc : t.cache.directoryName.lookup k with
    | some c => simp [hc] at h
    | none =>
      simp only [hc] at h
      cases hf : t.directoryIcons.byName.find? (fun icon => icon.matchPat k) with
      | some icon => simp [hf] at h
      | none => simp only [hf, Prod.mk.injEq] at h; exact h.2.symm

theorem matchPath_pos (t t' : IconTables) (k : String) (d : Bool) (i : Icon)
    (h : t.matchPath k d = (some i, t')) : t'.matchPath k d = (some i, t') := by
  cases d with
  | false =>
    simp only [IconTables.matchPath, Bool.false_eq_true, if_false] at h ⊢
    cases hc : t.cache.fileName.lookup k with
    | some c =>
      simp only [hc] at h
      obtain ⟨h1, h2⟩ := Prod.mk.injEq _ _ _ _ ▸ h
      obtain rfl := Option.some.injEq _ _ ▸ h1
      subst h2
      simp only [hc]
    | none =>
      simp only [hc] at h
      cases hf : t.fileIcons.byPath.find? (fun icon => icon.matchPat k) with
      | some icon =>
        simp only [hf] at h
        obtain ⟨h1, h2⟩ := Prod.mk.injEq _ _ _ _ ▸ h
        obtain rfl := Option.some.injEq _ _ ▸ h1
        subst h2
        simp [List.lookup]
      | none =>
        simp only [hf] at h
        exact absurd h (by simp)
  | true =>
    simp only [IconTables.matchPath, if_true] at h ⊢
    cases hc : t.cache.directoryName.lookup k with
    | some c =>
      simp only [hc] at h
      obtain ⟨h1, h2⟩ := Prod.mk.injEq _ _ _ _ ▸ h
      obtain rfl := Option.some.injEq _ _ ▸ h1
      subst h2
      simp only [hc]
    | none =>
      simp only [hc] at h
      cases hf : t.directoryIcons.byPath.find? (fun icon => icon.matchPat k) with
      | some icon =>
        simp only [hf] at h
        obtain ⟨h1, h2⟩ := Prod.mk.injEq _ _ _ _ ▸ h
        obtain rfl := Option.some.injEq _ _ ▸ h1
        subst h2
        simp [List.lookup]
      | none =>
        simp only [hf] at h
        exact absurd h (by simp)

theorem matchPath_neg (t t' : IconTables) (k : String) (d : Bool)
    (h : t.matchPath k d = (none, t')) : t' = t := by
  cases d with
  | false =>
    simp only [IconTables.matchPath, Bool.false_eq_true, if_false] at h
    cases hc : t.cache.fileName.lookup k with
    | some c => simp [hc] at h
    | none =>
      simp only [hc] at h
      cases hf : t.fileIcons.byPath.find? (fun icon => icon.matchPat k) with
      | some icon => simp [hf] at h
      | none => simp only [hf, Prod.mk.injEq] at h; exact h.2.symm
  | true =>
    simp only [IconTables.matchPath, if_true] at h
    cases hc : t.cache.directoryName.lookup k with
    | some c => simp [hc] at h
    | none =>
      simp only [hc] at h
      cases hf : t.directoryIcons.byPath.find? (fun icon => icon.matchPat k) with
      | some icon => simp [hf] at h
      | none => simp only [hf, Prod.mk.injEq] at h; exact h.2.symm

/-- C5 counterexample: the claim says every match operation stores its
result in the kind-specific cache before returning, including a negative
"no match" result.  On the concrete table `tablesX`, `matchName "zzz"`
returns a negative result and leaves the file-name cache without any entry
for "zzz", so the negative result was not stored and a repeated lookup
re-scans the index. -/
theorem matchName_negative_result_not_cached :
    (tablesX.matchName "zzz" false).1 = none ∧
    ((tablesX.matchName "zzz" false).2.cache.fileName.lookup "zzz") = none := by
  exact ⟨rfl, rfl⟩

/-- C5 amended: each match operation caches a positive result before
returning — a repeated lookup of a previously-matched key is answered from
the cache, returning the same icon with no further state change — but a
negative result is not cached: a no-match lookup leaves the table
unchanged, so a repeated miss re-scans the ordered index. -/
theorem match_ops_cache_positive_results_only
    (t t' : IconTables) (k : String) (d : Bool) (i : Icon) :
    (t.matchName k d = (some i, t') → t'.matchName k d = (some i, t')) ∧
    (t.matchName k d = (none, t') → t' = t) ∧
    (t.matchPath k d = (some i, t') → t'.matchPath k d = (some i, t')) ∧
    (t.matchPath k d = (none, t') → t' = t) ∧
    (t.matchLanguage k = (some i, t') → t'.matchLanguage k = (some i, t')) ∧
    (t.matchLanguage k = (none, t') → t' = t) ∧
    (t.matchScope k = (some i, t') → t'.matchScope k = (some i, t')) ∧
    (t.matchScope k = (none, t') → t' = t) ∧
    (t.matchInterpreter k = (some i, t') → t'.matchInterpreter k = (some i, t')) ∧
    (t.matchInterpreter k = (none, t') → t' = t) ∧
    (t.matchSignature k = (some i, t') → t'.matchSignature k = (some i, t')) ∧
    (t.matchSignature k = (none, t') → t' = t) := by
  exact ⟨matchName_pos t t' k d i, matchName_neg t t' k d,
    matchPath_pos t t' k d i, matchPath_neg t t' k d,
    matchLanguage_pos t t' k i, matchLanguage_neg t t' k,
    matchScope_pos t t' k i, matchScope_neg t t' k,
    matchInterpreter_pos t t' k i, matchInterpreter_neg t t' k,
    matchSignature_pos t t' k i, matchSignature_neg t t' k⟩

/-- Witness for the amended C5 theorem at a concrete input: on `tablesX`,
a first `matchName "x"` matches `nameIconX` and a repeat of the call on the
resulting table is answered identically with no state change, while the
negative `matchName "zzz"` leaves the table untouched. -/
theorem match_ops_cache_positive_results_only_witness :
    ((tablesX.matchName "x" false).2.matchName "x" false
        = (some nameIconX, (tablesX.matchName "x" false).2)) ∧
    (tablesX.matchName "zzz" false).2 = tablesX := by
  refine ⟨?_, ?_⟩
  · exact (match_ops_cache_positive_results_only tablesX
      (tablesX.matchName "x" false).2 "x" false nameIconX).1 rfl
  · exact (match_ops_cache_positive_results_only tablesX
      (tablesX.matchName "zzz" false).2 "zzz" false nameIconX).2.1 rfl

/-- C6: for every byte buffer containing a null byte that no rule in the
signature index accepts (and that is not already cached), `matchSignature`
returns the precomputed binary icon and caches that result for the buffer;
and the fallback is applied only after the ordered rule scan is exhausted —
when the scan finds an accepting rule, that rule's icon is returned
instead, null byte or not. -/
theorem matchSignature_binary_fallback
    (t : IconTables) (data : String) (b : Icon)
    (hb : t.binaryIcon = some b)
    (hc : t.cache.signature.lookup data = none)
    (hn : IconTables.hasNullByte data = true) :
    ((∀ i ∈ t.fileIcons.bySignature, i.signature data = false) →
      (t.matchSignature data).1 = some b ∧
      (t.matchSignature data).2.cache.signature.lookup data = some b) ∧
    (∀ i, t.fileIcons.bySignature.find? (fun icon => icon.signature data) = some i →
      (t.matchSignature data).1 = some i) := by
  constructor
  · intro hno
    have hf : t.fileIcons.bySignature.find? (fun icon => icon.signature data) = none := by
      rw [List.find?_eq_none]
      intro i hi
      simp [hno i hi]
    unfold IconTables.matchSignature
    simp [hc, hf, hn, hb, List.lookup]
  · intro i hf
    unfold IconTables.matchSignature
    simp [hc, hf]

/-- Icon matched from the scope index at construction time, becoming the
binary icon of `tablesSig`. -/
def asmIcon : Icon :=
  { id := 3, matchPat := fun _ => false, lang := fun _ => false,
    scope := fun s => s = "source.asm", interpreter := fun _ => false,
    signature := fun _ => false }

/-- Signature rule accepting byte strings that begin with "M". -/
def sigIconMZ : Icon :=
  { id := 4, matchPat := fun _ => false, lang := fun _ => false,
    scope := fun _ => false, interpreter := fun _ => false,
    signature := fun s => s.take 1 = "M" }

/-- File icon set with a scope rule for "source.asm" (making the binary
icon available) and one byte-signature rule. -/
def iconSetSig : IconSet :=
  { IconSet.empty with byScope := [asmIcon], bySignature := [sigIconMZ] }

/-- Concrete rule table whose construction resolves `asmIcon` as the binary
icon. -/
def tablesSig : IconTables := IconTables.construct IconSet.empty iconSetSig

/-- Witness for the C6 theorem at concrete inputs: the buffer consisting of
a single null byte matches no signature rule of `tablesSig`, so the lookup
returns the binary icon `asmIcon` and caches it; and the null-containing
buffer "M\x00" is accepted by the signature rule, whose icon wins over the
binary fallback. -/
theorem matchSignature_binary_fallback_witness :
    (tablesSig.matchSignature "\x00").1 = some asmIcon ∧
    (tablesSig.matchSignature "\x00").2.cache.signature.lookup "\x00" = some asmIcon ∧
    (tablesSig.matchSignature "M\x00").1 = some sigIconMZ := by
  have h := matchSignature_binary_fallback tablesSig "\x00" asmIcon rfl rfl rfl
  have h1 := h.1 (by
    intro i hi
    have hi2 : i = sigIconMZ := by
      have he : tablesSig.fileIcons.bySignature = [sigIconMZ] := rfl
      rw [he] at hi
      simpa using hi
    rw [hi2]
    rfl)
  have h2 := (matchSignature_binary_fallback tablesSig "M\x00" asmIcon rfl rfl rfl).2
    sigIconMZ rfl
  exact ⟨h1.1, h1.2, h2⟩

/-! ### Session cache (`lib/storage.js`)

The `Storage` class wraps an `lru-cache` instance.  The parts of that
library the class uses are modelled here: a capacity-bounded map whose
entries are kept in most-recently-used-first order; `get` refreshes
recency, `set` inserts at the front and trims to capacity, `dump`/`load`
serialise in recency order.  `lru-cache` treats a falsy `max` as unbounded,
which `trim` reproduces for `max = 0`.  JavaScript entry objects are shared
by reference and mutated in place; the embedding models such writes with
`poke`, which updates the stored value without touching recency. -/

/-- A session-cache entry `{icon, inode}` (`storage.js:136-139`): `icon`
holds the `[priority, index, iconClass]` triple or null, `inode` the
recorded filesystem identity with `0` modelling null. -/
structure Entry where
  icon  : Option (Nat × Nat × List String)
  inode : Nat
deriving DecidableEq

/-- The blank entry `addPath` creates (`storage.js:136-139`). -/
def blankEntry : Entry := { icon := none, inode := 0 }

/-- Model of the `lru-cache` map: entries in most-recently-used-first
order, bounded by `max` (`0` meaning unbounded, as the library treats a
falsy `max` as Infinity). -/
structure LRUCache where
  max   : Nat
  items : List (String × Entry)
deriving DecidableEq

namespace LRUCache

/-- Truncate to capacity; a `max` of `0` is unbounded. -/
def trim (max : Nat) (l : List (String × Entry)) : List (String × Entry) :=
  if max == 0 then l else l.take max

/-- Pure lookup of the stored value (no recency change); models reading
the map without the `get` side effect. -/
def lookup (c : LRUCache) (k : String) : Option Entry :=
  c.items.lookup k

/-- Model of `lru-cache` `get`: a hit moves the entry to the front. -/
def get (c : LRUCache) (k : String) : Option Entry × LRUCache :=
  match c.items.lookup k with
  | none => (none, c)
  | some v => (some v, { c with items := (k, v) :: c.items.filter (fun p => p.1 != k) })

/-- Model of `lru-cache` `set`: insert at the front, evicting the
least-recently-used entries beyond capacity. -/
def set (c : LRUCache) (k : String) (v : Entry) : LRUCache :=
  { c with items := trim c.max ((k, v) :: c.items.filter (fun p => p.1 != k)) }

/-- Model of `lru-cache` `del`. -/
def del (c : LRUCache) (k : String) : LRUCache :=
  { c with items := c.items.filter (fun p => p.1 != k) }

/-- In-place mutation of the entry object stored for `k` (a write through
a JavaScript reference): value changes, recency does not. -/
def poke (c : LRUCache) (k : String) (f : Entry → Entry) : LRUCache :=
  { c with items := c.items.map (fun p => if p.1 == k then (p.1, f p.2) else p) }

/-- Model of `lru-cache` `length`. -/
def length (c : LRUCache) : Nat := c.items.length

/-- Model of `lru-cache` `dump`: the entries in recency order. -/
def dump (c : LRUCache) : List (String × Entry) := c.items

/-- Model of `lru-cache` `load`: replay the dumped entries oldest-first so
the dump's recency order is restored. -/
def load (c : LRUCache) (l : List (String × Entry)) : LRUCache :=
  l.reverse.foldl (fun acc p => acc.set p.1 p.2) c

end LRUCache

/-- The serialisable object produced by `Storage.serialise`
(`storage.js:53-58`): the dumped path map and a version field whose value
may be undefined (`none`). -/
structure SerialisedState where
  paths   : List (String × Entry)
  version : Option Nat

/-- The `this.data` hash of `Storage` (`storage.js:30-33`). -/
structure StorageData where
  paths   : LRUCache
  version : Nat

/-- State of a `Storage` instance: the `locked` flag and the data hash. -/
structure Storage where
  locked : Bool
  data   : StorageData

/-- Default `maxSize` option of the `Storage` constructor
(`storage.js:28`). -/
def defaultMaxSize : Nat := 10000

/-- Default `version` option of the `Storage` constructor
(`storage.js:28`), `0x005`. -/
def defaultVersion : Nat := 5

namespace Storage

/-- Embedding of `Storage.prototype.serialise` (`storage.js:53-58`).  The
source returns `version: this.version`, but no code path ever assigns a
`version` property on the instance — the constructor stores the version
inside `this.data` (`storage.js:30-33`) — so the property read yields
undefined, modelled as `none`. -/
def serialise (s : Storage) : SerialisedState :=
  { paths := s.data.paths.dump, version := none }

/-- Embedding of `Storage.prototype.isProjectRelated` (`storage.js:79-93`)
with the open project roots passed explicitly (the source reads them from
the ambient `atom.project`).  The embedding instantiates the POSIX
platform: `sep = "/"` and `isWin = false`, so the Windows-only normalised
comparison (`storage.js:86-90`) is dead code. -/
def isProjectRelated (roots : List String) (path : String) : Bool :=
  roots.any (fun root => path == root || path.startsWith (root ++ "/"))

/-- Embedding of `Storage.prototype.addPath` (`storage.js:133-142`):
no-op under lock (returning undefined), otherwise blindly overwrite the
path's entry with a blank one and return it. -/
def addPath (s : Storage) (path : String) : Option Entry × Storage :=
  if s.locked then (none, s)
  else (some blankEntry,
    { s with data := { s.data with paths := s.data.paths.set path blankEntry } })

/-- Embedding of `Storage.prototype.getPathEntry` (`storage.js:153-160`):
a recency-refreshing map read; on a miss, `null` when locked, otherwise a
freshly created blank entry. -/
def getPathEntry (s : Storage) (path : String) : Option Entry × Storage :=
  let r := s.data.paths.get path
  let s1 : Storage := { s with data := { s.data with paths := r.2 } }
  match r.1 with
  | some e => (some e, s1)
  | none => if s.locked then (none, s1) else s1.addPath path

/-- Embedding of `Storage.prototype.getPathIcon` (`storage.js:169-178`).
The source immediately destructures the result of `getPathEntry`; when
that result is `null` — the locked-and-absent case — the destructuring
throws a `TypeError`, modelled as the `error` branch. -/
def getPathIcon (s : Storage) (path : String) :
    Except String (Option (Nat × Nat × List String) × Storage) :=
  match s.getPathEntry path with
  | (none, _) => Except.error "TypeError: cannot destructure null"
  | (some e, s1) =>
    match e.icon with
    | none => Except.ok (none, s1)
    | some ic => Except.ok (some ic, s1)

/-- Embedding of `Storage.prototype.hasData` (`storage.js:187-190`).  The
map read refreshes recency, so the updated storage is returned alongside
the Boolean. -/
def hasData (s : Storage) (path : String) : Bool × Storage :=
  let r := s.data.paths.get path
  let s1 : Storage := { s with data := { s.data with paths := r.2 } }
  match r.1 with
  | none => (false, s1)
  | some e => (e.icon.isSome || e.inode != 0, s1)

/-- Embedding of `Storage.prototype.hasIcon` (`storage.js:199-202`). -/
def hasIcon (s : Storage) (path : String) : Bool × Storage :=
  let r := s.data.paths.get path
  let s1 : Storage := { s with data := { s.data with paths := r.2 } }
  match r.1 with
  | none => (false, s1)
  | some e => (e.icon.isSome, s1)

/-- Embedding of `Storage.prototype.deletePath` (`storage.js:249-252`). -/
def deletePath (s : Storage) (path : String) : Storage :=
  if s.locked then s
  else { s with data := { s.data with paths := s.data.paths.del path } }

/-- Embedding of `Storage.prototype.setPathIcon` (`storage.js:214-221`):
no-op on falsy icon data or under lock; otherwise fetch (or create) the
path's entry and write the `[priority, index, iconClass]` triple through
the shared reference. -/
def setPathIcon (s : Storage) (path : String)
    (iconData : Option (Nat × Nat × List String)) : Storage :=
  match iconData with
  | none => s
  | some d =>
    if s.locked then s
    else
      let r := s.getPathEntry path
      let s1 := r.2
      { s1 with data := { s1.data with
          paths := s1.data.paths.poke path (fun e => { e with icon := some d }) } }

/-- Embedding of `Storage.prototype.setPathInode` (`storage.js:230-241`):
no-op on a falsy inode or under lock; if the entry already records a
different inode, the whole entry is deleted and recreated blank before the
new inode is written. -/
def setPathInode (s : Storage) (path : String) (inode : Nat) : Storage :=
  if inode == 0 || s.locked then s
  else
    let r := s.getPathEntry path
    let s1 := r.2
    match r.1 with
    | none => s1
    | some e =>
      if e.inode != 0 && e.inode != inode then
        let s2 := s1.deletePath path
        let s3 := (s2.addPath path).2
        { s3 with data := { s3.data with
            paths := s3.data.paths.poke path (fun e2 => { e2 with inode := inode }) } }
      else
        { s1 with data := { s1.data with
            paths := s1.data.paths.poke path (fun e2 => { e2 with inode := inode }) } }

/-- Embedding of `Storage.prototype.size` (`storage.js:272-276`). -/
def size (s : Storage) : Nat := s.data.paths.length

/-- Embedding of `Storage.prototype.clean` (`storage.js:64-69`): sweep a
snapshot of the cached paths, deleting every one with no cached data or
falling outside all project roots.  The `hasData` probe refreshes recency
as in the source. -/
def clean (s : Storage) (roots : List String) : Storage :=
  (s.data.paths.items.map Prod.fst).foldl
    (fun acc path =>
      let h := acc.hasData path
      if !h.1 || !isProjectRelated roots path then h.2.deletePath path else h.2)
    s

/-- Embedding of the `Storage` constructor (`storage.js:28-40`) with the
project roots (used by the `clean` call during restoration) passed
explicitly: start unlocked with an empty LRU map; when prior state exists
and its stored version strictly equals the current one, load the dumped
paths and purge invalid data, otherwise start cold. -/
def construct (state : Option SerialisedState) (roots : List String)
    (maxSize version : Nat) : Storage :=
  let s0 : Storage :=
    { locked := false,
      data := { paths := { max := maxSize, items := [] }, version := version } }
  match state with
  | none => s0
  | some st =>
    if st.version == some version then
      ({ s0 with data := { s0.data with
          paths := s0.data.paths.load st.paths } }).clean roots
    else s0

end Storage

theorem lookup_map_update_head (k : String) (v : Entry) (g : Entry → Entry)
    (l : List (String × Entry)) :
    List.lookup k (List.map (fun p => if p.1 == k then (p.1, g p.2) else p) ((k, v) :: l))
      = some (g v) := by
  have hk : (k == k) = true := by simp
  rw [List.map_cons, if_pos hk]
  simp [List.lookup]

/-- C2: the claim says `serialise()` carries the integer version of the
current format and that constructing a new `Storage` from its output (with
the default options) restores every cached path entry.  The code violates
this: `serialise` returns `version: this.version` while the constructor
stored the version in `this.data`, so the serialised version is undefined
(`none`); it therefore never strictly equals the constructor's integer
version and every round-trip starts cold, for all storages and all
constructor options — and in particular the default ones. -/
theorem serialise_roundtrip_always_cold
    (s : Storage) (roots : List String) (maxSize version : Nat) :
    s.serialise.version = none ∧
    (Storage.construct (some s.serialise) roots maxSize version).data.paths.items = [] ∧
    (Storage.construct (some s.serialise) roots
      defaultMaxSize defaultVersion).size = 0 := by
  exact ⟨rfl, rfl, rfl⟩

/-- C8: on an unlocked cache, when a path's entry already records a
non-zero inode and `setPathInode` is called with a different non-zero
inode, the whole entry is deleted and recreated blank before the new inode
is recorded, so the resulting entry holds the new inode and no icon. -/
theorem setPathInode_replaces_stale_entry
    (s : Storage) (path : String) (e : Entry) (j : Nat)
    (hl : s.locked = false)
    (he : s.data.paths.lookup path = some e)
    (hi0 : e.inode ≠ 0) (hj0 : j ≠ 0) (hij : e.inode ≠ j) :
    (s.setPathInode path j).data.paths.lookup path
      = some { icon := none, inode := j } := by
  have hj : (j == 0) = false := by simp [hj0]
  have hcond : (e.inode != 0 && e.inode != j) = true := by simp [hi0, hij]
  have he' : s.data.paths.items.lookup path = some e := he
  unfold Storage.setPathInode Storage.getPathEntry Storage.deletePath Storage.addPath
  simp only [LRUCache.get, LRUCache.lookup, he', hj, hl, Bool.or_self,
    Bool.false_eq_true, if_false, hcond, if_true, LRUCache.set, LRUCache.del,
    LRUCache.poke]
  cases hm : s.data.paths.max with
  | zero =>
    simp only [LRUCache.trim, beq_self_eq_true, if_true]
    exact lookup_map_update_head path blankEntry (fun e2 => { e2 with inode := j }) _
  | succ m =>
    have hz : ((m + 1 : Nat) == 0) = false := by simp
    simp only [LRUCache.trim, hz, Bool.false_eq_true, if_false, List.take_succ_cons]
    exact lookup_map_update_head path blankEntry (fun e2 => { e2 with inode := j }) _

/-- C8 witness: build a concrete cache, record inode 5 for a path, store an
icon for it, then record inode 9; the theorem applies and the entry ends up
blank except for inode 9. -/
theorem setPathInode_replaces_stale_entry_witness :
    ((((Storage.construct none [] 10 5).setPathInode "/a" 5).setPathIcon "/a"
        (some (1, 0, ["icon-file"]))).setPathInode "/a" 9).data.paths.lookup "/a"
      = some { icon := none, inode := 9 } := by
  exact setPathInode_replaces_stale_entry
    (((Storage.construct none [] 10 5).setPathInode "/a" 5).setPathIcon "/a"
      (some (1, 0, ["icon-file"])))
    "/a" { icon := some (1, 0, ["icon-file"]), inode := 5 } 9
    rfl rfl (by decide) (by decide) (by decide)

/-- C9 counterexample: the claim says `getPathIcon` is total and never
throws, in particular when the cache is locked and the path has no entry.
On a concrete locked, empty storage the call destructures the `null`
returned by `getPathEntry` and throws, modelled as the error branch. -/
theorem getPathIcon_throws_when_locked_and_absent :
    ((Storage.mk true
        (StorageData.mk (LRUCache.mk 10 []) 5)).getPathIcon "/a").isOk = false := by
  exact rfl

/-- C9 amended: `getPathIcon` returns a `{priority, index, iconClass}`
record or null whenever the cache is unlocked or the path already has an
entry; only in the remaining case — cache locked and path absent, where
`getPathEntry` returns null — does the call throw a `TypeError`. -/
theorem getPathIcon_total_unless_locked_and_absent
    (s : Storage) (path : String)
    (h : s.locked = false ∨ (s.data.paths.lookup path).isSome = true) :
    (s.getPathIcon path).isOk = true := by
  unfold Storage.getPathIcon Storage.getPathEntry Storage.addPath
  simp only [LRUCache.get, LRUCache.lookup] at h ⊢
  cases hc : s.data.paths.items.lookup path with
  | some v =>
    obtain ⟨vicon, vinode⟩ := v
    cases vicon with
    | none => rfl
    | some ic => rfl
  | none =>
    rcases h with hl | habs
    · simp only [hl, Bool.false_eq_true, if_false]
      rfl
    · rw [hc] at habs
      simp at habs

/-- C9 witness: on a concrete unlocked empty storage the accessor returns
without throwing. -/
theorem getPathIcon_total_unless_locked_and_absent_witness :
    ((Storage.construct none [] 10 5).getPathIcon "/a").isOk = true := by
  exact getPathIcon_total_unless_locked_and_absent
    (Storage.construct none [] 10 5) "/a" (Or.inl rfl)

theorem lookup_none_filter_eq (l : List (String × Entry)) (k : String)
    (h : l.lookup k = none) : l.filter (fun p => p.1 != k) = l := by
  induction l with
  | nil => rfl
  | cons p t ih =>
    rw [List.lookup] at h
    cases hpk : k == p.1 with
    | true => simp [hpk] at h
    | false =>
      simp only [hpk] at h
      have hkp : k ≠ p.1 := beq_eq_false_iff_ne.mp hpk
      have hne : (p.1 == k) = false := beq_eq_false_iff_ne.mpr (Ne.symm hkp)
      have hbne : (p.1 != k) = true := by simp [bne, hne]
      rw [List.filter_cons, if_pos hbne, ih h]

/-- C10: on an unlocked cache, reading a path with no existing entry
through `getPathEntry` inserts a fresh blank entry into the LRU path map:
the read returns the blank entry, the map afterwards contains it at the
front (truncated to capacity, so a full cache evicts its least-recently-
used entry), the cache size grows accordingly, and `getPathIcon` performs
the same insertion, reporting no icon. -/
theorem getPathEntry_read_inserts_blank
    (s : Storage) (path : String)
    (hl : s.locked = false)
    (hm : s.data.paths.lookup path = none) :
    (s.getPathEntry path).1 = some blankEntry ∧
    (s.getPathEntry path).2.data.paths.items
      = LRUCache.trim s.data.paths.max ((path, blankEntry) :: s.data.paths.items) ∧
    (s.getPathEntry path).2.data.paths.lookup path = some blankEntry ∧
    (s.data.paths.max ≠ 0 →
      (s.getPathEntry path).2.size = min (s.size + 1) s.data.paths.max) ∧
    s.getPathIcon path = Except.ok (none, (s.getPathEntry path).2) := by
  have hm' : s.data.paths.items.lookup path = none := hm
  have hfilter := lookup_none_filter_eq s.data.paths.items path hm'
  unfold Storage.getPathIcon Storage.getPathEntry Storage.addPath
  simp only [LRUCache.get, LRUCache.lookup, LRUCache.set, hm', hl,
    Bool.false_eq_true, if_false, hfilter]
  refine ⟨trivial, trivial, ?_, ?_, rfl⟩
  · cases hmx : s.data.paths.max with
    | zero => simp [LRUCache.trim, List.lookup]
    | succ m => simp [LRUCache.trim, List.lookup, List.take_succ_cons]
  · intro hne
    cases hmx : s.data.paths.max with
    | zero => exact absurd hmx hne
    | succ m =>
      simp only [Storage.size, LRUCache.length, LRUCache.trim, hmx,
        Nat.succ_ne_zero, beq_iff_eq, if_false, List.take_succ_cons,
        List.length_cons, List.length_take]
      omega

/-- C10 witness: a concrete unlocked cache with capacity 1 already holding
an entry for "/a"; merely reading "/b" through `getPathEntry` creates a
blank entry for "/b" and evicts the entry for "/a". -/
theorem getPathEntry_read_inserts_blank_witness :
    ((Storage.mk false (StorageData.mk
        (LRUCache.mk 1 [("/a", Entry.mk none 7)]) 5)).getPathEntry "/b").1
      = some blankEntry ∧
    ((Storage.mk false (StorageData.mk
        (LRUCache.mk 1 [("/a", Entry.mk none 7)]) 5)).getPathEntry "/b").2.data.paths.items
      = [("/b", blankEntry)] ∧
    ((Storage.mk false (StorageData.mk
        (LRUCache.mk 1 [("/a", Entry.mk none 7)]) 5)).getPathEntry "/b").2.data.paths.lookup "/a"
      = none := by
  refine ⟨(getPathEntry_read_inserts_blank
    (Storage.mk false (StorageData.mk (LRUCache.mk 1 [("/a", Entry.mk none 7)]) 5))
    "/b" rfl rfl).1, rfl, rfl⟩

/-! ### Strategy manager (`StrategyManager` in `lib/storage.js`, second
compilation unit)

A strategy instance is reduced to the fields the manager reads: its name,
declared priority, capability flags, enablement, and its `check` method,
modelled as a Boolean predicate on the resource (the truthy "stop" signal
`query` tests).  `query`'s observable behaviour is which strategies it
invokes and in what order, so the embedding returns that invocation
trace. -/

/-- The parts of a filesystem resource the strategy layer reads. -/
structure Resource where
  isDirectory : Bool
  name        : String
  data        : Option String
  executable  : Option Bool

/-- A detection strategy as seen by the manager. -/
structure Strategy where
  name         : String
  priority     : Nat
  matchesFiles : Bool
  matchesDirs  : Bool
  enabled      : Bool
  check        : Resource → Bool

/-- Write a value into a sparse array slot, extending the array with holes
(`none`) as JavaScript does when assigning past the end. -/
def sparseSet {α : Type} (arr : List (Option α)) (i : Nat) (v : α) :
    List (Option α) :=
  let arr2 := if arr.length < i + 1 then
    arr ++ List.replicate (i + 1 - arr.length) none else arr
  arr2.set i (some v)

/-- Build the sparse priority-indexed array from the strategies in load
order: `this.fileStrategies[priority] = strategy` (`storage.js:337`
second unit). -/
def buildSparse {α : Type} (l : List (Nat × α)) : List (Option α) :=
  l.foldl (fun arr pv => sparseSet arr pv.1 pv.2) []

/-- Compact and reverse a sparse strategy array:
`.filter(Boolean).reverse()` (`storage.js:324-325` second unit). -/
def compactReverse {α : Type} (arr : List (Option α)) : List α :=
  (arr.filterMap id).reverse

/-- Embedding of `StrategyManager.loadStrategies`: partition the loaded
strategies into the file list and the directory list by their capability
flags, slot each by its declared priority, then compact and reverse both
lists into evaluation order. -/
def loadStrategies (l : List Strategy) : List Strategy × List Strategy :=
  (compactReverse (buildSparse ((l.filter (fun s => s.matchesFiles)).map
      (fun s => (s.priority, s)))),
   compactReverse (buildSparse ((l.filter (fun s => s.matchesDirs)).map
      (fun s => (s.priority, s)))))

/-- State of a `StrategyManager` after loading: the two evaluation-ordered
strategy lists. -/
structure StrategyManager where
  fileStrategies      : List Strategy
  directoryStrategies : List Strategy

/-- The iteration inside `query` (`storage.js:362-367` second unit):
walk the strategy list, skipping disabled strategies without invoking
them, invoking `check` on each enabled one, and stopping right after the
first `check` that returns the truthy stop signal.  The result is the
trace of invoked strategies in invocation order. -/
def runStrategies (strats : List Strategy) (r : Resource) : List Strategy :=
  match strats with
  | [] => []
  | s :: rest =>
    if !s.enabled then runStrategies rest r
    else if s.check r then [s]
    else s :: runStrategies rest r

/-- Embedding of `StrategyManager.query` (`storage.js:353-368` second
unit): a null resource is a no-op; otherwise the directory or file list is
selected by the resource kind and iterated.  The returned trace records
which strategies were invoked. -/
def query (m : StrategyManager) (resource : Option Resource) : List Strategy :=
  match resource with
  | none => []
  | some res =>
    runStrategies
      (if res.isDirectory then m.directoryStrategies else m.fileStrategies) res

/-! ### Concrete strategies

Priorities and names are those declared in the sources:
`signature-strategy.js` (priority 0), `hashbang-strategy.js` (priority 5),
`modeline-strategy.js` (priority 6).  Modelled from the spec: the
capability flags (the `Strategy`/`HeaderStrategy` base classes are not
part of the sources at hand) — header strategies classify file content, so
they match files and not directories.  The `check` bodies are irrelevant
to the ordering claims and are modelled as never committing. -/

/-- The signature strategy head record (`signature-strategy.js:9-16`). -/
def signatureStrategy : Strategy :=
  { name := "signature", priority := 0, matchesFiles := true,
    matchesDirs := false, enabled := true, check := fun _ => false }

/-- The hashbang strategy head record (`hashbang-strategy.js:9-14`). -/
def hashbangStrategy : Strategy :=
  { name := "hashbangs", priority := 5, matchesFiles := true,
    matchesDirs := false, enabled := true, check := fun _ => false }

/-- The modeline strategy head record (`modeline-strategy.js:9-14`). -/
def modelineStrategy : Strategy :=
  { name := "modelines", priority := 6, matchesFiles := true,
    matchesDirs := false, enabled := true, check := fun _ => false }

/-- A plain file resource used to drive concrete queries. -/
def resFile : Resource :=
  { isDirectory := false, name := "f.txt", data := none, executable := none }

/-- C3 counterexample: the claim says the signature strategy is evaluated
first (highest priority) within every query over a file resource.  With
the priorities declared in the sources — signature 0, hashbangs 5,
modelines 6 — the compact-and-reverse load order puts the modeline
strategy first, not the signature strategy. -/
theorem signature_strategy_not_evaluated_first :
    (((loadStrategies
        [signatureStrategy, hashbangStrategy, modelineStrategy]).1.head?).map
          Strategy.name) = some "modelines" ∧
    some "modelines" ≠ some "signature" := by
  exact ⟨rfl, by decide⟩

/-- C3 amended: evaluation proceeds from the highest-priority slot of the
compacted, reversed strategy list, so among the three header strategies
the signature strategy (priority 0) is evaluated last, after modelines
(priority 6) and hashbangs (priority 5); a query over a file resource on
a manager built from them invokes them in exactly that order. -/
theorem evaluation_order_follows_reversed_priorities :
    ((loadStrategies
        [signatureStrategy, hashbangStrategy, modelineStrategy]).1.map
          Strategy.name) = ["modelines", "hashbangs", "signature"] ∧
    ((query
        (StrategyManager.mk
          (loadStrategies [signatureStrategy, hashbangStrategy, modelineStrategy]).1
          (loadStrategies [signatureStrategy, hashbangStrategy, modelineStrategy]).2)
        (some resFile)).map Strategy.name)
      = ["modelines", "hashbangs", "signature"] := by
  exact ⟨rfl, rfl⟩

/-! ### Invocation discipline of `query` -/

theorem runStrategies_sublist (l : List Strategy) (r : Resource) :
    (runStrategies l r).Sublist l := by
  induction l with
  | nil => exact List.Sublist.refl []
  | cons s rest ih =>
    unfold runStrategies
    cases hs : s.enabled with
    | false => simp only [Bool.not_false, if_true]; exact ih.cons s
    | true =>
      simp only [Bool.not_true, Bool.false_eq_true, if_false]
      cases hc : s.check r with
      | true =>
        simp only [if_true]
        exact (List.nil_sublist rest).cons₂ s
      | false =>
        simp only [Bool.false_eq_true, if_false]
        exact ih.cons₂ s

theorem runStrategies_enabled (l : List Strategy) (r : Resource) :
    ∀ s ∈ runStrategies l r, s.enabled = true := by
  induction l with
  | nil => intro s hs; cases hs
  | cons a rest ih =>
    intro s hs
    unfold runStrategies at hs
    cases ha : a.enabled with
    | false =>
      simp only [ha, Bool.not_false, if_true] at hs
      exact ih s hs
    | true =>
      simp only [ha, Bool.not_true, Bool.false_eq_true, if_false] at hs
      cases hc : a.check r with
      | true =>
        simp only [hc, if_true, List.mem_singleton] at hs
        rw [hs]; exact ha
      | false =>
        simp only [hc, Bool.false_eq_true, if_false, List.mem_cons] at hs
        rcases hs with hs | hs
        · rw [hs]; exact ha
        · exact ih s hs

theorem runStrategies_countP (l : List Strategy) (r : Resource) :
    (runStrategies l r).countP (fun s => s.check r) ≤ 1 := by
  induction l with
  | nil => simp [runStrategies]
  | cons a rest ih =>
    unfold runStrategies
    cases ha : a.enabled with
    | false => simpa using ih
    | true =>
      simp only [Bool.not_true, Bool.false_eq_true, if_false]
      cases hc : a.check r with
      | true => simp [List.countP_cons, hc]
      | false =>
        simp only [hc, Bool.false_eq_true, if_false]
        rw [List.countP_cons]
        simp [hc, ih]

theorem runStrategies_commit_is_last (l : List Strategy) (r : Resource) :
    ∀ pre s post, runStrategies l r = pre ++ s :: post →
      s.check r = true → post = [] := by
  induction l with
  | nil =>
    intro pre s post h _
    simp [runStrategies] at h
  | cons a rest ih =>
    intro pre s post h hcommit
    unfold runStrategies at h
    cases ha : a.enabled with
    | false =>
      simp only [ha, Bool.not_false, if_true] at h
      exact ih pre s post h hcommit
    | true =>
      simp only [ha, Bool.not_true, Bool.false_eq_true, if_false] at h
      cases hc : a.check r with
      | true =>
        simp only [hc, if_true] at h
        rcases pre with _ | ⟨p, pre2⟩
        · simp at h
          exact h.2
        · simp at h
      | false =>
        simp only [hc, Bool.false_eq_true, if_false] at h
        rcases pre with _ | ⟨p, pre2⟩
        · simp at h
          rw [← h.1] at hcommit
          rw [hcommit] at hc
          cases hc
        · simp at h
          exact ih pre2 s post h.2 hcommit

/-- C4: for every resource, `query` selects the directory or file strategy
list by resource kind, evaluates only enabled strategies in list order
(the invocation trace is an order-preserving sublist of the selected list
containing only enabled strategies), stops at the first strategy whose
check returns a truthy value — so at most one invoked strategy commits and
nothing after the committing strategy is ever invoked — and a null
resource is a no-op. -/
theorem query_invocation_discipline
    (m : StrategyManager) (res : Resource) (strats trace : List Strategy)
    (hs : strats = if res.isDirectory then m.directoryStrategies else m.fileStrategies)
    (ht : trace = query m (some res)) :
    query m none = [] ∧
    trace.Sublist strats ∧
    (∀ s ∈ trace, s.enabled = true) ∧
    trace.countP (fun s => s.check res) ≤ 1 ∧
    (∀ pre s post, trace = pre ++ s :: post → s.check res = true → post = []) := by
  subst hs ht
  refine ⟨rfl, ?_, ?_, ?_, ?_⟩
  · exact runStrategies_sublist _ res
  · exact runStrategies_enabled _ res
  · exact runStrategies_countP _ res
  · exact runStrategies_commit_is_last _ res

/-- Disabled strategy whose check would commit if it were ever invoked. -/
def stratA : Strategy :=
  { name := "a", priority := 0, matchesFiles := true, matchesDirs := false,
    enabled := false, check := fun _ => true }

/-- Enabled strategy that declines. -/
def stratB : Strategy :=
  { name := "b", priority := 1, matchesFiles := true, matchesDirs := false,
    enabled := true, check := fun _ => false }

/-- Enabled strategy that commits. -/
def stratC : Strategy :=
  { name := "c", priority := 2, matchesFiles := true, matchesDirs := false,
    enabled := true, check := fun _ => true }

/-- Enabled strategy after the committing one; must never be invoked. -/
def stratD : Strategy :=
  { name := "d", priority := 3, matchesFiles := true, matchesDirs := false,
    enabled := true, check := fun _ => true }

/-- File-strategy list exercising every branch of `query`. -/
def mgrC : StrategyManager :=
  { fileStrategies := [stratA, stratB, stratC, stratD], directoryStrategies := [] }

/-- C4 witness: on the concrete manager the trace skips the disabled
`stratA`, invokes `stratB` and the committing `stratC`, and never reaches
`stratD`; the null query is a no-op and the trace contains exactly one
commit. -/
theorem query_invocation_discipline_witness :
    query mgrC none = [] ∧
    query mgrC (some resFile) = [stratB, stratC] ∧
    (query mgrC (some resFile)).countP (fun s => s.check resFile) ≤ 1 := by
  refine ⟨(query_invocation_discipline mgrC resFile
      mgrC.fileStrategies (query mgrC (some resFile)) rfl rfl).1, rfl, ?_⟩
  exact (query_invocation_discipline mgrC resFile
      mgrC.fileStrategies (query mgrC (some resFile)) rfl rfl).2.2.2.1

/-! ### Hashbang strategy (`lib/service/strategies/hashbang-strategy.js`)

`matchIcon` matches the resource's first line against the regular
expression

  `^#!(?:(?:\s*\S*\/|\s*(?=perl6?))(\S+))(?:(?:\s+\S+=\S*)*\s+(\S+))?`

The parser below implements that pattern's backtracking semantics
directly: after `#!`, either whitespace, a token ending in a slash and a
non-empty capture (`\S*\/` is greedy, so the capture follows the last
usable slash of the first word), or whitespace followed by a word starting
with `perl`; then optionally any number of `NAME=value` assignment words
followed by the captured first argument (the greedy star backtracks by one
word when no word would remain for the capture). -/

/-- Test for the characters matched by the regex class `\s`. -/
def isSpaceChar (c : Char) : Bool :=
  c == ' ' || c == '\t' || c == '\n' || c == '\r' || c == '\x0b' || c == '\x0c'

/-- Modelled from the spec: `HeaderStrategy.getFirstLine` (the
`header-strategy.js` base class is not part of the sources at hand) —
extract the first newline-delimited segment of a resource's data. -/
def getFirstLine (data : String) : String :=
  String.mk (data.toList.takeWhile (fun c => !(c == '\n' || c == '\r')))

/-- The suffix of the word following its last slash that still leaves a
non-empty capture: the greedy `\S*\/(\S+)` unit of the hashbang pattern. -/
def afterLastSlash : List Char → Option (List Char)
  | [] => none
  | c :: rest =>
    match afterLastSlash rest with
    | some g => some g
    | none => if c == '/' && !rest.isEmpty then some rest else none

/-- A word consumable by the greedy `(?:\s+\S+=\S*)*` star: any word with
an `=` after its first character. -/
def isAssignmentWord (w : List Char) : Bool :=
  (w.drop 1).contains '='

/-- The capture of `(?:(?:\s+\S+=\S*)*\s+(\S+))?` over the word list after
the interpreter: skip assignment words greedily, capture the next word;
when only assignment words remain, the star backtracks by one and the last
word is captured; no word at all leaves the optional group unmatched. -/
def argCapture : List (List Char) → Option (List Char)
  | [] => none
  | w :: rest =>
    if isAssignmentWord w then
      match argCapture rest with
      | some g => some g
      | none => some w
    else some w

/-- Split into maximal runs of non-whitespace characters. -/
def splitWordsAux : List Char → List Char → List (List Char)
  | [], acc => if acc.isEmpty then [] else [acc.reverse]
  | c :: rest, acc =>
    if isSpaceChar c then
      if acc.isEmpty then splitWordsAux rest []
      else acc.reverse :: splitWordsAux rest []
    else splitWordsAux rest (c :: acc)

/-- Word list of a character sequence. -/
def splitWords (l : List Char) : List (List Char) :=
  splitWordsAux l []

/-- The two capture groups of the hashbang pattern. -/
structure HashbangTokens where
  first  : List Char
  second : Option (List Char)

/-- Match the hashbang pattern against a line, producing the two capture
groups (`tokens[1]`, `tokens[2]`) or `none` when the line does not
match. -/
def parseHashbangLine (line : String) : Option HashbangTokens :=
  match line.toList with
  | '#' :: '!' :: rest =>
    let afterSpaces := rest.dropWhile isSpaceChar
    let word := afterSpaces.takeWhile (fun c => !isSpaceChar c)
    let remaining := afterSpaces.dropWhile (fun c => !isSpaceChar c)
    let g1 : Option (List Char) :=
      match afterLastSlash word with
      | some g => some g
      | none => if word.take 4 == ['p', 'e', 'r', 'l'] then some word else none
    match g1 with
    | none => none
    | some g => some { first := g, second := argCapture (splitWords remaining) }
  | _ => none

/-- JavaScript `name.split("/").pop()`: the (possibly empty) segment after
the last slash. -/
def lastSegment (w : List Char) : List Char :=
  w.foldl (fun acc c => if c == '/' then [] else acc ++ [c]) []

/-- Test for `/\.tsx?$/i`: the name ends in `.ts` or `.tsx`, matched
case-insensitively. -/
def endsWithTsTsx (name : String) : Bool :=
  let r := (name.toList.map Char.toLower).reverse
  r.take 3 == ['s', 't', '.'] || r.take 4 == ['x', 's', 't', '.']

namespace HashbangStrategy

/-- Embedding of `HashbangStrategy.matchIcon`
(`hashbang-strategy.js:17-55`): parse the first line's hashbang; take the
last path segment of the first argument when the interpreter is `env`;
return null for a `node` interpreter on a `.ts`/`.tsx` resource; otherwise
resolve the name through the interpreter index, falling back to the
executable icon when the resource is known to be executable — when stats
are still unknown the source registers a one-shot listener and returns
null now, so the embedding returns null in that case. -/
def matchIcon (t : IconTables) (r : Resource) : Option Icon × IconTables :=
  match r.data with
  | none => (none, t)
  | some data =>
    match parseHashbangLine (getFirstLine data) with
    | none => (none, t)
    | some tokens =>
      let name : List Char :=
        if tokens.first == ['e', 'n', 'v'] then lastSegment (tokens.second.getD [])
        else tokens.first
      if name == ['n', 'o', 'd', 'e'] && endsWithTsTsx r.name then (none, t)
      else
        let res := t.matchInterpreter (String.mk name)
        match res.1 with
        | some icon => (some icon, res.2)
        | none =>
          match r.executable with
          | none => (none, res.2)
          | some true => (res.2.executableIcon, res.2)
          | some false => (none, res.2)

end HashbangStrategy

example : parseHashbangLine "#!/usr/bin/env node"
    = some { first := "env".toList, second := some "node".toList } := by rfl

example : parseHashbangLine "#!/bin/bash"
    = some { first := "bash".toList, second := none } := by rfl

example : parseHashbangLine "#!perl -w"
    = some { first := "perl".toList, second := some "-w".toList } := by rfl

example : parseHashbangLine "#! /usr/bin/env -S A=1 B=2"
    = some { first := "env".toList, second := some "-S".toList } := by rfl

example : parseHashbangLine "#!/usr/bin/env FOO=bar python3"
    = some { first := "env".toList, second := some "python3".toList } := by rfl

example : parseHashbangLine "echo hi" = none := by rfl

example : getFirstLine "#!/usr/bin/env node\nconsole.log(1);"
    = "#!/usr/bin/env node" := by rfl

example : endsWithTsTsx "build.ts" = true := by rfl

example : endsWithTsTsx "Build.TSX" = true := by rfl

example : endsWithTsTsx "build.js" = false := by rfl

/-- C7: for every file resource with loaded data whose first line is the
hashbang `#!/usr/bin/env node`: if the resource's name ends in `.ts` or
`.tsx` (case-insensitively) the hashbang strategy's `matchIcon` returns
null, deferring to later strategies; otherwise the interpreter name is the
last path segment of env's first argument — "node" — and is resolved
through the rule table's interpreter index, whose answer `matchIcon`
returns. -/
theorem hashbang_env_node
    (t : IconTables) (r : Resource) (d : String)
    (hd : r.data = some d)
    (hline : getFirstLine d = "#!/usr/bin/env node") :
    (endsWithTsTsx r.name = true → (HashbangStrategy.matchIcon t r).1 = none) ∧
    (endsWithTsTsx r.name = false →
      ∀ i t2, t.matchInterpreter "node" = (some i, t2) →
        HashbangStrategy.matchIcon t r = (some i, t2)) := by
  have hp : parseHashbangLine "#!/usr/bin/env node"
      = some { first := "env".toList, second := some "node".toList } := rfl
  have hname : (if ("env".toList == ['e', 'n', 'v'])
      then lastSegment ((some "node".toList).getD []) else "env".toList)
      = "node".toList := rfl
  constructor
  · intro hts
    simp only [HashbangStrategy.matchIcon, hd, hline, hp, hname, hts,
      Bool.and_true]
    have hnode : ("node".toList == ['n', 'o', 'd', 'e']) = true := rfl
    rw [hnode]
    rfl
  · intro hts i t2 hmi
    simp only [HashbangStrategy.matchIcon, hd, hline, hp, hname, hts,
      Bool.and_false, Bool.false_eq_true, if_false]
    have hstr : String.mk "node".toList = "node" := rfl
    rw [hstr, hmi]

/-- Interpreter rule icon for the `node` interpreter. -/
def nodeIcon : Icon :=
  { id := 5, matchPat := fun _ => false, lang := fun _ => false,
    scope := fun _ => false, interpreter := fun s => s = "node",
    signature := fun _ => false }

/-- File icon set holding only the node interpreter rule. -/
def iconSetNode : IconSet :=
  { IconSet.empty with byInterpreter := [nodeIcon] }

/-- Concrete rule table able to resolve the `node` interpreter. -/
def tablesNode : IconTables := IconTables.construct IconSet.empty iconSetNode

/-- A TypeScript source carrying a node hashbang. -/
def resBuildTs : Resource :=
  { isDirectory := false, name := "build.ts",
    data := some "#!/usr/bin/env node\nexport default 1;",
    executable := none }

/-- A JavaScript source carrying the same node hashbang. -/
def resBuildJs : Resource :=
  { isDirectory := false, name := "build.js",
    data := some "#!/usr/bin/env node\nmodule.exports = 1;",
    executable := none }

/-- C7 witness: the hashbang `#!/usr/bin/env node` on `build.ts` yields no
interpreter classification, while on `build.js` it yields the node
interpreter icon. -/
theorem hashbang_env_node_witness :
    (HashbangStrategy.matchIcon tablesNode resBuildTs).1 = none ∧
    (HashbangStrategy.matchIcon tablesNode resBuildJs).1 = some nodeIcon := by
  constructor
  · exact (hashbang_env_node tablesNode resBuildTs
      "#!/usr/bin/env node\nexport default 1;" rfl rfl).1 rfl
  · have h := (hashbang_env_node tablesNode resBuildJs
      "#!/usr/bin/env node\nmodule.exports = 1;" rfl rfl).2 rfl nodeIcon
      ((tablesNode.matchInterpreter "node").2) rfl
    rw [h]

end Atom
